import Mathlib

/-!
Shallow embedding of the `DBMapUtils` derive logic of
`crates/typed-store-derive/src/lib.rs` (mysten-infra).

The source is a procedural macro: for a struct whose fields are all
`DBMap<K, V>` (or `Store<K, V>`) it generates a configurator, an
`open_tables_impl` open routine (primary or secondary mode), a read-write
handle with `get_memory_usage`, `describe_tables` and `get_read_only_handle`,
and a read-only handle with `open_tables_read_only`, `dump`, `count_keys` and
`describe_tables`.

We embed, faithfully to the generated code:
* the field extraction and validation of `extract_struct_info`
  (panics become `Except` errors, one constructor per distinct panic);
* per-table options resolution inside `open_tables_impl`
  (`None` branch invokes the per-table override function names,
  `Some` branch looks every table up in the caller map and the
  `.unwrap()` panic on a missing entry becomes `MissingTableOverride`);
* the engine calls (`open_cf_opts`, `open_cf_opts_secondary`, `reopen`,
  `try_catch_up_with_primary`, iteration, memory stats) as events recorded
  in an explicit trace, with engine outcomes supplied by an oracle;
* `std::collections::BTreeMap` collection (Rust `String` keys compare
  lexicographically; insertion of an existing key replaces the value)
  as an insertion into a strictly sorted association list.
-/

/-! ## BTreeMap model: lexicographic string order and sorted association lists -/

/-- Lexicographic comparison of char lists; mirrors the order Rust `String`
keys have inside a `BTreeMap` (UTF-8 byte order coincides with code-point
order). -/
def charListLtB : List Char → List Char → Bool
  | _, [] => false
  | [], _ :: _ => true
  | a :: as, b :: bs => if a < b then true else if b < a then false else charListLtB as bs

/-- Strict order on strings used by the BTreeMap model. -/
def strLtB (s t : String) : Bool := charListLtB s.data t.data

/-- Insertion into the sorted-association-list model of `BTreeMap<String, A>`:
inserting an existing key replaces its value (Rust `BTreeMap::insert`). -/
def btreeInsert {A : Type} (k : String) (v : A) : List (String × A) → List (String × A)
  | [] => [(k, v)]
  | (k2, v2) :: rest =>
    if strLtB k k2 then (k, v) :: (k2, v2) :: rest
    else if k = k2 then (k2, v) :: rest
    else (k2, v2) :: btreeInsert k v rest

/-- Model of `.collect::<BTreeMap<_, _>>()` on a sequence of pairs: left-to-right
insertion into an empty map, so a later pair with an equal key overwrites an
earlier one. -/
def btreeCollect {A : Type} (l : List (String × A)) : List (String × A) :=
  l.foldl (fun m p => btreeInsert p.1 p.2 m) []

/-- Strictly increasing keys: the invariant of the BTreeMap model. -/
def keysSorted {A : Type} (m : List (String × A)) : Prop :=
  m.Pairwise (fun p q => strLtB p.1 q.1 = true)

/-- Embedding of the relevant shape of a struct field type (`syn::Type`):
either a path type whose first segment has an identifier and optionally
angle-bracketed generic arguments (`DBMap<K, V>` has head `DBMap` and
arguments `[K, V]` rendered as strings), or any other kind of type. -/
inductive FieldType where
  | path (head : String) (angleArgs : Option (List String))
  | nonPath
deriving DecidableEq, Repr

/-- One declared field of the input struct: its name, its type, and the parsed
value of a `#[default_options_override_fn = "..."]` attribute when present. -/
structure FieldDecl where
  name : String
  ty : FieldType
  overrideAttr : Option String
deriving DecidableEq, Repr

/-- The constant `DEFAULT_DB_OPTIONS_CUSTOM_FN` of the source: the function
used when no `default_options_override_fn` attribute is given. -/
def DEFAULT_DB_OPTIONS_CUSTOM_FN : String := "typed_store::rocks::default_rocksdb_options"

/-- Embedding of `GeneralTableOptions`: an override-function name; the
`Default` instance wraps `DEFAULT_DB_OPTIONS_CUSTOM_FN`. -/
inductive GeneralTableOptions where
  | OverrideFunction (fnName : String)
deriving DecidableEq, Repr

instance : Inhabited GeneralTableOptions :=
  ⟨GeneralTableOptions.OverrideFunction DEFAULT_DB_OPTIONS_CUSTOM_FN⟩

/-- One extracted table: field name, the two generic arguments rendered as
strings (key and value type names), and the resolved options-override
function name. -/
structure TableDef where
  name : String
  keyType : String
  valueType : String
  optionsFn : String
deriving DecidableEq, Repr

/-- Error taxonomy for schema validation. Each constructor stands for one
distinct panic of `extract_struct_info`: `Empty` for
`Cannot derive on empty struct`, `InvalidFieldType` for
`All struct members must be of type ...` (carrying the offending field), and
`HeterogeneousTableKinds` for `All struct members must be of same type`. -/
inductive SchemaError where
  | Empty
  | InvalidFieldType (name : String)
  | HeterogeneousTableKinds
deriving DecidableEq, Repr

/-- Per-field step of `extract_struct_info`: parse the options attribute
(default when absent), require `Type::Path` with angle-bracketed arguments
and a head in the allowed map-type set; returns
`((field name, type head), (generic args, options fn))` as the source's
iterator does. -/
def checkField (allowed : List String) (f : FieldDecl) :
    Except SchemaError ((String × String) × (List String × String)) :=
  match f.ty with
  | FieldType.path head (some args) =>
    if allowed.contains head then
      match f.overrideAttr with
      | none => Except.ok ((f.name, head), (args, DEFAULT_DB_OPTIONS_CUSTOM_FN))
      | some fn => Except.ok ((f.name, head), (args, fn))
    else Except.error (SchemaError.InvalidFieldType f.name)
  | FieldType.path _ none => Except.error (SchemaError.InvalidFieldType f.name)
  | FieldType.nonPath => Except.error (SchemaError.InvalidFieldType f.name)

/-- Key type name: first angle-bracketed argument (`q.args.first()`). -/
def keyTypeOf (args : List String) : String := args.headD ""

/-- Value type name: last angle-bracketed argument (`q.args.last()`). -/
def valueTypeOf (args : List String) : String := args.getLastD ""

/-- Per-field checks applied in field order, the first failing field winning,
as the source's iterator does when forced by `unzip`. -/
def checkFields (allowed : List String) :
    List FieldDecl → Except SchemaError (List ((String × String) × (List String × String)))
  | [] => Except.ok []
  | f :: rest =>
    match checkField allowed f with
    | Except.error e => Except.error e
    | Except.ok q =>
      match checkFields allowed rest with
      | Except.error e => Except.error e
      | Except.ok qs => Except.ok (q :: qs)

/-- Embedding of `extract_struct_info`: check every field in order (the first
offending field panics), then require a nonempty field list, then require all
fields to use the same map-type head; on success return the table list and
the common head. -/
def extract_struct_info (allowed : List String) (fields : List FieldDecl) :
    Except SchemaError (List TableDef × String) :=
  match checkFields allowed fields with
  | Except.error e => Except.error e
  | Except.ok info =>
    match info.head? with
    | none => Except.error SchemaError.Empty
    | some first =>
      if info.all (fun q => q.1.2 = first.1.2) then
        Except.ok
          (info.map (fun q =>
            { name := q.1.1
              keyType := keyTypeOf q.2.1
              valueType := valueTypeOf q.2.1
              optionsFn := q.2.2 }),
           first.1.2)
      else Except.error SchemaError.HeterogeneousTableKinds

/-! ## Engine oracle, events and the open protocol -/

/-- Opaque stand-in for a `rocksdb::Options` value. -/
structure RocksOptions where
  tag : String
deriving DecidableEq, Repr

/-- Engine-facing events emitted by the embedded operations, in call order.
The trace makes "before any engine I/O" and "catch-up before iteration"
statable. -/
inductive EngineEvent where
  | openPrimary (path : String) (globalOpt : Option RocksOptions)
      (cfs : List (String × RocksOptions))
  | openSecondary (path : String) (secondaryPath : String)
      (globalOpt : Option RocksOptions) (cfs : List (String × RocksOptions))
  | reopenCF (cf : String)
  | catchUp (table : String)
  | iterate (table : String)
deriving DecidableEq, Repr

/-- Failure modes of `open_tables_impl`: the `.unwrap()` on a missing caller
override entry, the `.expect("Cannot open DB.")` on an engine open failure,
and the `.expect("Cannot open {} CF.")` on a column-family reopen failure. -/
inductive OpenError where
  | MissingTableOverride (table : String)
  | CannotOpenDB
  | CannotOpenCF (cf : String)
deriving DecidableEq, Repr

/-- Outcomes the underlying engine gives to `open_cf_opts` /
`open_cf_opts_secondary` and to each per-table `reopen`. -/
structure EngineOracle where
  openResult : Except String Unit
  reopenResult : String → Except String Unit

/-- Association-list lookup, modelling `map.get(name)` on the caller override
map (`DBMapTableConfigMap::to_map()`). -/
def assocLookup {A : Type} (m : List (String × A)) (k : String) : Option A :=
  match m.find? (fun p => p.1 = k) with
  | none => none
  | some p => some p.2

/-- Caller-override branch of the `opt_cfs` resolution: every declared table
is looked up in the caller map; the first missing entry is the
`.unwrap()` panic, embedded as `MissingTableOverride`. -/
def optCfsOverride (m : List (String × RocksOptions)) :
    List TableDef → Except OpenError (List (String × RocksOptions))
  | [] => Except.ok []
  | f :: rest =>
    match assocLookup m f.name with
    | none => Except.error (OpenError.MissingTableOverride f.name)
    | some o =>
      match optCfsOverride m rest with
      | Except.error e => Except.error e
      | Except.ok cfs => Except.ok ((f.name, o) :: cfs)

/-- The `opt_cfs` match of `open_tables_impl`: with no caller map, invoke each
table's override function (through the environment `env` giving each function
name its produced options); with a caller map, take every entry from the
map. -/
def optCfs (fields : List TableDef) (env : String → RocksOptions)
    (tablesOverride : Option (List (String × RocksOptions))) :
    Except OpenError (List (String × RocksOptions)) :=
  match tablesOverride with
  | none => Except.ok (fields.map (fun f => (f.name, env f.optionsFn)))
  | some m => optCfsOverride m fields

/-- The per-field `DBMap::reopen` tuple: evaluated left to right, the first
failing `expect` stops the evaluation. Returns the outcome and the reopen
events actually performed. -/
def reopenAll (eng : EngineOracle) :
    List String → Except OpenError Unit × List EngineEvent
  | [] => (Except.ok (), [])
  | n :: rest =>
    match eng.reopenResult n with
    | Except.error _ => (Except.error (OpenError.CannotOpenCF n), [EngineEvent.reopenCF n])
    | Except.ok _ =>
      let r := reopenAll eng rest
      (r.1, EngineEvent.reopenCF n :: r.2)

/-- Embedding of `open_tables_impl`: resolve `opt_cfs` (a resolution failure
panics before any engine call, hence the empty trace), then call
`open_cf_opts_secondary` or `open_cf_opts` depending on
`as_secondary_with_path`, then reopen each column family. On success the
handle is represented by the list of opened table names. -/
def open_tables_impl (fields : List TableDef) (env : String → RocksOptions)
    (path : String) (asSecondaryWithPath : Option String)
    (globalOpt : Option RocksOptions)
    (tablesOverride : Option (List (String × RocksOptions)))
    (eng : EngineOracle) :
    Except OpenError (List String) × List EngineEvent :=
  match optCfs fields env tablesOverride with
  | Except.error e => (Except.error e, [])
  | Except.ok cfs =>
    let ev := match asSecondaryWithPath with
      | some p => EngineEvent.openSecondary path p globalOpt cfs
      | none => EngineEvent.openPrimary path globalOpt cfs
    match eng.openResult with
    | Except.error _ => (Except.error OpenError.CannotOpenDB, [ev])
    | Except.ok _ =>
      let r := reopenAll eng (fields.map (fun f => f.name))
      match r.1 with
      | Except.error e => (Except.error e, ev :: r.2)
      | Except.ok _ => (Except.ok (fields.map (fun f => f.name)), ev :: r.2)

/-- Embedding of `open_tables_read_write`: delegates to `open_tables_impl`
with `as_secondary_with_path = None`. -/
def open_tables_read_write (fields : List TableDef) (env : String → RocksOptions)
    (path : String) (globalOpt : Option RocksOptions)
    (tablesOverride : Option (List (String × RocksOptions)))
    (eng : EngineOracle) :
    Except OpenError (List String) × List EngineEvent :=
  open_tables_impl fields env path none globalOpt tablesOverride eng

/-- Embedding of `open_tables_read_only`: the tables-override argument of
`open_tables_impl` is always `None`; when the caller gives no secondary path
a fresh scratch directory (`tempfile::tempdir()`, supplied here as
`scratchPath`) is used. -/
def open_tables_read_only (fields : List TableDef) (env : String → RocksOptions)
    (primaryPath : String) (withSecondaryPath : Option String)
    (globalOpt : Option RocksOptions) (scratchPath : String)
    (eng : EngineOracle) :
    Except OpenError (List String) × List EngineEvent :=
  match withSecondaryPath with
  | some q => open_tables_impl fields env primaryPath (some q) globalOpt none eng
  | none => open_tables_impl fields env primaryPath (some scratchPath) globalOpt none eng

/-- Embedding of `get_read_only_handle`: it simply calls
`open_tables_read_only`. -/
def get_read_only_handle (fields : List TableDef) (env : String → RocksOptions)
    (primaryPath : String) (withSecondaryPath : Option String)
    (globalOpt : Option RocksOptions) (scratchPath : String)
    (eng : EngineOracle) :
    Except OpenError (List String) × List EngineEvent :=
  open_tables_read_only fields env primaryPath withSecondaryPath globalOpt scratchPath eng

/-! ## Read-only handle and introspection -/

/-- One opened table of the read-only handle. `primaryView` is the entry
sequence, in the engine's iteration order, that becomes visible after a
successful `try_catch_up_with_primary`; `catchUpErr` is the error that call
returns when the engine fails to catch up. -/
structure ROTable (K V : Type) where
  name : String
  primaryView : List (K × V)
  catchUpErr : Option String

/-- The read-only handle produced by `open_tables_read_only`: its tables in
declaration order (the order of the generated match arms). -/
structure ReadOnlyHandle (K V : Type) where
  tables : List (ROTable K V)

/-- Failure values of `dump` / `count_keys` (both are `eyre::Result`):
the `bail!("No such table name: ...")` arm and a propagated
`try_catch_up_with_primary` error. -/
inductive DumpError where
  | NoSuchTable (name : String)
  | CatchUpError (msg : String)
deriving DecidableEq, Repr

/-- The generated `match table_name` arms compare the name against each
declared field name in declaration order. -/
def findTable {K V : Type} (h : ReadOnlyHandle K V) (name : String) :
    Option (ROTable K V) :=
  h.tables.find? (fun t => t.name = name)

/-- Modulus of the 64-bit `usize` arithmetic of the source. -/
def USIZE_MOD : Nat := 2 ^ 64

/-- Embedding of the read-only handle's `dump`: dispatch on the table name
(unknown names bail), catch up with the primary, then iterate, skip
`page_number * (page_size as usize)` entries, take `page_size` entries,
render each pair with the debug formatters and collect into a `BTreeMap`.
The skip count is a `usize` product: on overflow it wraps modulo `2^64`
(release-build semantics; a debug build would panic instead), so it is
embedded as the product reduced modulo `USIZE_MOD`. The second component is
the engine-event trace of the call. -/
def dump {K V : Type} (renderK : K → String) (renderV : V → String)
    (h : ReadOnlyHandle K V) (tableName : String) (pageSize : Nat)
    (pageNumber : Nat) :
    Except DumpError (List (String × String)) × List EngineEvent :=
  match findTable h tableName with
  | none => (Except.error (DumpError.NoSuchTable tableName), [])
  | some t =>
    match t.catchUpErr with
    | some e => (Except.error (DumpError.CatchUpError e), [EngineEvent.catchUp tableName])
    | none =>
      (Except.ok (btreeCollect
        (((t.primaryView.drop ((pageNumber * pageSize) % USIZE_MOD)).take pageSize).map
          (fun kv => (renderK kv.1, renderV kv.2)))),
       [EngineEvent.catchUp tableName, EngineEvent.iterate tableName])

/-- Embedding of the read-only handle's `count_keys`: dispatch on the table
name, catch up with the primary, then count all entries by full iteration. -/
def count_keys {K V : Type} (h : ReadOnlyHandle K V) (tableName : String) :
    Except DumpError Nat × List EngineEvent :=
  match findTable h tableName with
  | none => (Except.error (DumpError.NoSuchTable tableName), [])
  | some t =>
    match t.catchUpErr with
    | some e => (Except.error (DumpError.CatchUpError e), [EngineEvent.catchUp tableName])
    | none =>
      (Except.ok t.primaryView.length,
       [EngineEvent.catchUp tableName, EngineEvent.iterate tableName])

/-- Embedding of `describe_tables` as generated on the primary struct: one
entry per field, `(field name, (key type name, value type name))`, collected
into a `BTreeMap`. A pure function of the schema alone: no opened handle is
involved. -/
def describe_tables (fields : List TableDef) : List (String × (String × String)) :=
  btreeCollect (fields.map (fun f => (f.name, (f.keyType, f.valueType))))

/-- Embedding of the textually identical `describe_tables` generated on the
read-only struct. -/
def describe_tables_ro (fields : List TableDef) : List (String × (String × String)) :=
  btreeCollect (fields.map (fun f => (f.name, (f.keyType, f.valueType))))

/-! ## Memory usage -/

/-- Embedding of `typed_store::rocks::TypedStoreError` as used here. -/
inductive TypedStoreError where
  | RocksDBError (msg : String)
deriving DecidableEq, Repr

/-- The fields of `rocksdb::perf::get_memory_usage_stats` that the generated
code reads. -/
structure MemStats where
  memTableTotal : Nat
  cacheTotal : Nat
deriving DecidableEq, Repr

/-- The primary (read-write) handle: all fields of the generated struct share
the single `rocksdb` engine instance (`self.<first_field>.rocksdb`), so the
handle is one engine-instance identifier plus the table names. -/
structure PrimaryHandle where
  dbInstance : String
  tables : List String
deriving DecidableEq, Repr

/-- Embedding of the generated `get_memory_usage`: query
`rocksdb::perf::get_memory_usage_stats` on the shared engine instance
(reached through the first field), map an engine failure to
`TypedStoreError::RocksDBError(e.to_string())`, and on success return
`(stats.mem_table_total, stats.cache_total)`. The `stats` oracle gives the
engine's accounting per engine instance. -/
def get_memory_usage (stats : String → Except String MemStats)
    (h : PrimaryHandle) : Except TypedStoreError (Nat × Nat) :=
  match stats h.dbInstance with
  | Except.error e => Except.error (TypedStoreError.RocksDBError e)
  | Except.ok s => Except.ok (s.memTableTotal, s.cacheTotal)

/-! ## Method exposure

The derive emits its methods into three impl blocks. These lists transcribe,
block by block, which method names the generated code attaches to the
primary struct (`#name`) and to the read-only struct
(`#secondary_db_map_struct_name`, including its `TypedStoreDebug` trait
impl). -/

/-- Methods generated on the primary struct `#name`. -/
def primaryHandleMethods : List String :=
  ["configurator", "open_tables_read_write", "get_memory_usage",
   "describe_tables", "get_read_only_handle"]

/-- Methods generated on the read-only struct `#nameReadOnly`, including the
`TypedStoreDebug` trait methods. -/
def readOnlyHandleMethods : List String :=
  ["open_tables_read_only", "dump", "count_keys", "describe_tables",
   "dump_table", "primary_db_name", "describe_all_tables", "count_table_keys"]

/-! ## Concrete inputs used by witnesses -/

/-- Concrete table used by witnesses: echoes the spec's `accounts` example. -/
def wTable : ROTable String String :=
  { name := "accounts", primaryView := [("a", "1"), ("b", "2"), ("c", "3")], catchUpErr := none }

/-- Concrete read-only handle used by witnesses. -/
def wHandle : ReadOnlyHandle String String := { tables := [wTable] }

/-- Concrete table whose two keys render to the same debug string. -/
def wCollideTable : ROTable Nat Nat :=
  { name := "t", primaryView := [(1, 1), (2, 2)], catchUpErr := none }

/-- Concrete handle for the rendering-collision scenario. -/
def wCollideHandle : ReadOnlyHandle Nat Nat := { tables := [wCollideTable] }

/-- Key renderer that collapses every key to the same debug string. -/
def wConstRender (_n : Nat) : String := "k"

/-- Value renderer marking values distinctly. -/
def wValRender (n : Nat) : String := String.mk (List.replicate n 'x')

/-- The engine-open event `open_tables_impl` emits for the given mode. -/
def mkOpenEvent (path : String) (sec : Option String) (g : Option RocksOptions)
    (cfs : List (String × RocksOptions)) : EngineEvent :=
  match sec with
  | some p => EngineEvent.openSecondary path p g cfs
  | none => EngineEvent.openPrimary path g cfs

/-- A field type acceptable to `extract_struct_info`: a path type with
angle-bracketed generic arguments whose head is an allowed map-type name. -/
def fieldTypeOk (allowed : List String) (f : FieldDecl) : Bool :=
  match f.ty with
  | FieldType.path head (some _) => allowed.contains head
  | _ => false

/-- Head identifier of a field's path type (empty for non-path types). -/
def fieldTypeHead (f : FieldDecl) : String :=
  match f.ty with
  | FieldType.path head _ => head
  | FieldType.nonPath => ""

/-- Angle-bracketed arguments of a field's type (empty when absent). -/
def fieldArgs (f : FieldDecl) : List String :=
  match f.ty with
  | FieldType.path _ (some args) => args
  | _ => []

/-- The value `checkField` produces on success. -/
def checkFieldVal (f : FieldDecl) : (String × String) × (List String × String) :=
  ((f.name, fieldTypeHead f),
   (fieldArgs f, f.overrideAttr.getD DEFAULT_DB_OPTIONS_CUSTOM_FN))

/-- Concrete allowed map-type names, as in the derive entry point. -/
def wAllowed : List String := ["DBMap", "Store"]

/-- Concrete raw struct field with a declared override function. -/
def wRaw1 : FieldDecl :=
  { name := "table1", ty := FieldType.path "DBMap" (some ["String", "String"]),
    overrideAttr := some "custom_fn_name1" }

/-- Concrete raw struct field with no override attribute. -/
def wRaw2 : FieldDecl :=
  { name := "table2", ty := FieldType.path "DBMap" (some ["i32", "String"]),
    overrideAttr := none }

/-- Concrete raw struct fields mirroring the doc example `Tables`. -/
def wRawFields : List FieldDecl := [wRaw1, wRaw2]

/-- A field whose type is not an allowed table-kind wrapper. -/
def wBadField : FieldDecl :=
  { name := "bad_field", ty := FieldType.path "u32" none, overrideAttr := none }

/-- A valid field using the other allowed wrapper (`Store`). -/
def wStoreField : FieldDecl :=
  { name := "table0", ty := FieldType.path "Store" (some ["String", "String"]),
    overrideAttr := none }

/-- The tables extracted from `wRawFields`. -/
def wTables : List TableDef :=
  [{ name := "table1", keyType := "String", valueType := "String",
     optionsFn := "custom_fn_name1" },
   { name := "table2", keyType := "i32", valueType := "String",
     optionsFn := DEFAULT_DB_OPTIONS_CUSTOM_FN }]

/-- Concrete environment giving each override-function name an options
value. -/
def wEnv : String → RocksOptions := fun s => RocksOptions.mk s

/-- Concrete engine oracle on which every call succeeds. -/
def wEng : EngineOracle :=
  { openResult := Except.ok (), reopenResult := fun _ => Except.ok () }

/-- Concrete caller override map covering every table of `wTables`. -/
def wFullMap : List (String × RocksOptions) :=
  [("table1", RocksOptions.mk "o1"), ("table2", RocksOptions.mk "o2")]

/-! ## Theorems -/

theorem charListLtB_irrefl (l : List Char) : charListLtB l l = false := by
  induction l with
  | nil => rfl
  | cons a as ih => simp [charListLtB, ih]

theorem charListLtB_trans :
    ∀ a b c : List Char, charListLtB a b = true → charListLtB b c = true →
      charListLtB a c = true := by
  intro a
  induction a with
  | nil =>
    intro b c hab hbc
    cases c with
    | nil =>
      cases b with
      | nil => exact hab
      | cons y ys => simp [charListLtB] at hbc
    | cons z zs => simp [charListLtB]
  | cons x xs ih =>
    intro b c hab hbc
    cases b with
    | nil => simp [charListLtB] at hab
    | cons y ys =>
      cases c with
      | nil => simp [charListLtB] at hbc
      | cons z zs =>
        simp only [charListLtB] at hab hbc ⊢
        by_cases hxy : x < y
        · by_cases hyz : y < z
          · simp [lt_trans hxy hyz]
          · by_cases hzy : z < y
            · simp [charListLtB, hyz, hzy] at hbc
            · have hyz2 : y = z := le_antisymm (not_lt.mp hzy) (not_lt.mp hyz)
              subst hyz2
              simp [hxy]
        · by_cases hyx : y < x
          · simp [charListLtB, hxy, hyx] at hab
          · have hxy2 : x = y := le_antisymm (not_lt.mp hyx) (not_lt.mp hxy)
            subst hxy2
            simp only [if_neg hxy, if_neg hyx] at hab
            by_cases hyz : x < z
            · simp [hyz]
            · by_cases hzy : z < x
              · simp [charListLtB, hyz, hzy] at hbc
              · have hyz2 : x = z := le_antisymm (not_lt.mp hzy) (not_lt.mp hyz)
                subst hyz2
                simp only [if_neg hyz, if_neg hzy] at hbc ⊢
                exact ih ys zs hab hbc

theorem charListLtB_eq_of_not :
    ∀ a b : List Char, charListLtB a b = false → charListLtB b a = false → a = b := by
  intro a
  induction a with
  | nil =>
    intro b hab _
    cases b with
    | nil => rfl
    | cons y ys => simp [charListLtB] at hab
  | cons x xs ih =>
    intro b hab hba
    cases b with
    | nil => simp [charListLtB] at hba
    | cons y ys =>
      simp only [charListLtB] at hab hba
      by_cases hxy : x < y
      · simp [hxy] at hab
      · by_cases hyx : y < x
        · simp [hyx, hxy] at hba
        · have hxy2 : x = y := le_antisymm (not_lt.mp hyx) (not_lt.mp hxy)
          subst hxy2
          simp only [if_neg hxy] at hab hba
          have := ih ys hab hba
          rw [this]

theorem strLtB_trans {a b c : String} (h1 : strLtB a b = true) (h2 : strLtB b c = true) :
    strLtB a c = true :=
  charListLtB_trans a.data b.data c.data h1 h2

theorem strLtB_eq_of_not {a b : String} (h1 : strLtB a b = false) (h2 : strLtB b a = false) :
    a = b := by
  cases a with
  | mk da =>
    cases b with
    | mk db =>
      have : da = db := charListLtB_eq_of_not da db h1 h2
      rw [this]

theorem strLtB_irrefl (s : String) : strLtB s s = false := charListLtB_irrefl s.data

theorem strLtB_total_of_ne {a b : String} (hne : a ≠ b) (h : strLtB a b = false) :
    strLtB b a = true := by
  by_contra hc
  exact hne (strLtB_eq_of_not h (Bool.eq_false_iff.mpr hc))

theorem mem_btreeInsert {A : Type} {p : String × A} {k : String} {v : A} :
    ∀ {m : List (String × A)}, p ∈ btreeInsert k v m → p = (k, v) ∨ p ∈ m := by
  intro m
  induction m with
  | nil =>
    intro h
    simp [btreeInsert] at h
    exact Or.inl h
  | cons q rest ih =>
    intro h
    match q with
    | (k2, v2) =>
      simp only [btreeInsert] at h
      by_cases h1 : strLtB k k2
      · simp only [if_pos h1, List.mem_cons] at h
        rcases h with h | h | h
        · exact Or.inl h
        · exact Or.inr (by simp [h])
        · exact Or.inr (List.mem_cons_of_mem _ h)
      · by_cases h2 : k = k2
        · simp only [if_neg h1, if_pos h2, List.mem_cons] at h
          rcases h with h | h
          · subst h2; exact Or.inl h
          · exact Or.inr (List.mem_cons_of_mem _ h)
        · simp only [if_neg h1, if_neg h2, List.mem_cons] at h
          rcases h with h | h
          · exact Or.inr (by simp [h])
          · rcases ih h with h | h
            · exact Or.inl h
            · exact Or.inr (List.mem_cons_of_mem _ h)

theorem key_mem_btreeInsert_self {A : Type} (k : String) (v : A) :
    ∀ m : List (String × A), k ∈ (btreeInsert k v m).map Prod.fst := by
  intro m
  induction m with
  | nil => simp [btreeInsert]
  | cons q rest ih =>
    match q with
    | (k2, v2) =>
      simp only [btreeInsert]
      by_cases h1 : strLtB k k2
      · simp [if_pos h1]
      · by_cases h2 : k = k2
        · subst h2; simp [if_neg h1]
        · simp only [if_neg h1, if_neg h2, List.map_cons, List.mem_cons]
          exact Or.inr ih

theorem key_mem_btreeInsert_of {A : Type} {x k : String} {v : A} :
    ∀ {m : List (String × A)}, x ∈ m.map Prod.fst →
      x ∈ (btreeInsert k v m).map Prod.fst := by
  intro m
  induction m with
  | nil => intro h; simp at h
  | cons q rest ih =>
    intro h
    match q with
    | (k2, v2) =>
      simp only [List.map_cons, List.mem_cons] at h
      simp only [btreeInsert]
      by_cases h1 : strLtB k k2
      · simp only [if_pos h1, List.map_cons, List.mem_cons]
        rcases h with h | h
        · exact Or.inr (Or.inl h)
        · exact Or.inr (Or.inr h)
      · by_cases h2 : k = k2
        · rw [if_neg h1, if_pos h2]
          simp only [List.map_cons, List.mem_cons]
          exact h
        · simp only [if_neg h1, if_neg h2, List.map_cons, List.mem_cons]
          rcases h with h | h
          · exact Or.inl h
          · exact Or.inr (ih h)

theorem btreeInsert_length_le {A : Type} (k : String) (v : A) :
    ∀ m : List (String × A), (btreeInsert k v m).length ≤ m.length + 1 := by
  intro m
  induction m with
  | nil => simp [btreeInsert]
  | cons q rest ih =>
    match q with
    | (k2, v2) =>
      simp only [btreeInsert]
      by_cases h1 : strLtB k k2
      · simp [if_pos h1]
      · by_cases h2 : k = k2
        · simp [if_neg h1, if_pos h2]
        · simp only [if_neg h1, if_neg h2, List.length_cons]
          omega

theorem keysSorted_btreeInsert {A : Type} (k : String) (v : A) :
    ∀ {m : List (String × A)}, keysSorted m → keysSorted (btreeInsert k v m) := by
  intro m
  induction m with
  | nil => intro _; simp [btreeInsert, keysSorted]
  | cons q rest ih =>
    intro hs
    match q with
    | (k2, v2) =>
      rw [keysSorted, List.pairwise_cons] at hs
      obtain ⟨hhead, htail⟩ := hs
      simp only [btreeInsert]
      by_cases h1 : strLtB k k2
      · rw [if_pos h1, keysSorted, List.pairwise_cons]
        constructor
        · intro p hp
          rcases List.mem_cons.mp hp with h | h
          · subst h; exact h1
          · exact strLtB_trans h1 (hhead p h)
        · exact List.Pairwise.cons hhead htail
      · by_cases h2 : k = k2
        · rw [if_neg h1, if_pos h2, keysSorted, List.pairwise_cons]
          exact ⟨hhead, htail⟩
        · rw [if_neg h1, if_neg h2, keysSorted, List.pairwise_cons]
          constructor
          · intro p hp
            rcases mem_btreeInsert hp with h | h
            · subst h
              exact strLtB_total_of_ne h2 (Bool.eq_false_iff.mpr h1)
            · exact hhead p h
          · exact ih htail

theorem foldl_btreeInsert_mem {A : Type} {p : String × A} :
    ∀ (l : List (String × A)) (m : List (String × A)),
      p ∈ l.foldl (fun m2 q => btreeInsert q.1 q.2 m2) m → p ∈ m ∨ p ∈ l := by
  intro l
  induction l with
  | nil => intro m h; exact Or.inl h
  | cons q rest ih =>
    intro m h
    simp only [List.foldl_cons] at h
    rcases ih _ h with h2 | h2
    · rcases mem_btreeInsert h2 with h3 | h3
      · subst h3; exact Or.inr (by simp)
      · exact Or.inl h3
    · exact Or.inr (List.mem_cons_of_mem _ h2)

theorem foldl_btreeInsert_key_mem {A : Type} {x : String} :
    ∀ (l : List (String × A)) (m : List (String × A)),
      x ∈ m.map Prod.fst →
      x ∈ (l.foldl (fun m2 q => btreeInsert q.1 q.2 m2) m).map Prod.fst := by
  intro l
  induction l with
  | nil => intro m h; exact h
  | cons q rest ih =>
    intro m h
    simp only [List.foldl_cons]
    exact ih _ (key_mem_btreeInsert_of h)

theorem btreeCollect_sub {A : Type} {p : String × A} {l : List (String × A)}
    (h : p ∈ btreeCollect l) : p ∈ l := by
  rcases foldl_btreeInsert_mem l [] h with h2 | h2
  · simp at h2
  · exact h2

theorem btreeCollect_key_mem {A : Type} {k : String} {v : A} :
    ∀ {l : List (String × A)}, (k, v) ∈ l → k ∈ (btreeCollect l).map Prod.fst := by
  intro l hl
  rcases List.mem_iff_append.mp hl with ⟨pre, post, rfl⟩
  rw [btreeCollect, List.foldl_append, List.foldl_cons]
  exact foldl_btreeInsert_key_mem post _ (key_mem_btreeInsert_self k v _)

theorem foldl_btreeInsert_length {A : Type} :
    ∀ (l : List (String × A)) (m : List (String × A)),
      (l.foldl (fun m2 q => btreeInsert q.1 q.2 m2) m).length ≤ m.length + l.length := by
  intro l
  induction l with
  | nil => intro m; simp
  | cons q rest ih =>
    intro m
    simp only [List.foldl_cons, List.length_cons]
    calc (rest.foldl (fun m2 q => btreeInsert q.1 q.2 m2) (btreeInsert q.1 q.2 m)).length
        ≤ (btreeInsert q.1 q.2 m).length + rest.length := ih _
      _ ≤ (m.length + 1) + rest.length :=
          Nat.add_le_add_right (btreeInsert_length_le q.1 q.2 m) _
      _ = m.length + (rest.length + 1) := by omega

theorem btreeCollect_length_le {A : Type} (l : List (String × A)) :
    (btreeCollect l).length ≤ l.length := by
  have := foldl_btreeInsert_length l []
  simpa [btreeCollect] using this

theorem foldl_btreeInsert_sorted {A : Type} :
    ∀ (l : List (String × A)) (m : List (String × A)),
      keysSorted m → keysSorted (l.foldl (fun m2 q => btreeInsert q.1 q.2 m2) m) := by
  intro l
  induction l with
  | nil => intro m h; exact h
  | cons q rest ih =>
    intro m h
    simp only [List.foldl_cons]
    exact ih _ (keysSorted_btreeInsert q.1 q.2 h)

theorem btreeCollect_sorted {A : Type} (l : List (String × A)) :
    keysSorted (btreeCollect l) := by
  have : keysSorted ([] : List (String × A)) := List.Pairwise.nil
  exact foldl_btreeInsert_sorted l [] this

theorem exists_val_of_key_mem {A : Type} {x : String} {m : List (String × A)}
    (h : x ∈ m.map Prod.fst) : ∃ w, (x, w) ∈ m := by
  rcases List.mem_map.mp h with ⟨p, hp, hx⟩
  refine ⟨p.2, ?_⟩
  have h2 : (x, p.2) = p := by rw [← hx]
  rw [h2]
  exact hp

theorem nodup_key_val_eq {A : Type} {k : String} {a b : A} :
    ∀ {l : List (String × A)}, (l.map Prod.fst).Nodup →
      (k, a) ∈ l → (k, b) ∈ l → a = b := by
  intro l
  induction l with
  | nil => intro _ ha; simp at ha
  | cons q rest ih =>
    intro hnd ha hb
    simp only [List.map_cons, List.nodup_cons] at hnd
    obtain ⟨hq, hrest⟩ := hnd
    rcases List.mem_cons.mp ha with ha2 | ha2
    · rcases List.mem_cons.mp hb with hb2 | hb2
      · rw [← ha2] at hb2
        exact (congrArg Prod.snd hb2).symm
      · exfalso
        apply hq
        have h3 : q.1 = k := by rw [← ha2]
        rw [h3]
        exact List.mem_map.mpr ⟨(k, b), hb2, rfl⟩
    · rcases List.mem_cons.mp hb with hb2 | hb2
      · exfalso
        apply hq
        have h3 : q.1 = k := by rw [← hb2]
        rw [h3]
        exact List.mem_map.mpr ⟨(k, a), ha2, rfl⟩
      · exact ih hrest ha2 hb2

theorem btreeCollect_mem_of_nodup {A : Type} {k : String} {v : A}
    {l : List (String × A)} (hnd : (l.map Prod.fst).Nodup) (h : (k, v) ∈ l) :
    (k, v) ∈ btreeCollect l := by
  have hk : k ∈ (btreeCollect l).map Prod.fst := btreeCollect_key_mem h
  rcases exists_val_of_key_mem hk with ⟨w, hw⟩
  have hwl : (k, w) ∈ l := btreeCollect_sub hw
  have : w = v := nodup_key_val_eq hnd hwl h
  rwa [this] at hw

/-- C1 counterexample: at page size 4 and page number `2^63` the `usize`
skip count `2^63 * 4` wraps to `0`, so although `N*P` far exceeds the
table's 3 entries the call returns the full first page rather than the
empty map the claim requires (a debug build would panic instead). -/
theorem C1_dump_pagination_counterexample :
    wTable.primaryView.length ≤ 2 ^ 63 * 4 ∧
    (dump (fun s : String => s) (fun s : String => s) wHandle "accounts" 4 (2 ^ 63)).1 =
      Except.ok [("a", "1"), ("b", "2"), ("c", "3")] ∧
    (dump (fun s : String => s) (fun s : String => s) wHandle "accounts" 4 (2 ^ 63)).1 ≠
      Except.ok [] := by
  refine ⟨by decide, rfl, ?_⟩
  intro hcontra
  rw [show (dump (fun s : String => s) (fun s : String => s) wHandle "accounts" 4
        (2 ^ 63)).1 =
      Except.ok [("a", "1"), ("b", "2"), ("c", "3")] from rfl] at hcontra
  simp at hcontra

/-- C1 amended: for every opened read-only handle, declared table `t`, page
size `P` and page number `N` whose skip count `N*P` does not overflow
`usize` (`N*P < 2^64`), `dump(t, P, N)` skips the first `N*P` entries of
`t`'s iteration order and returns the next at-most-`P` entries rendered as
debug strings (collected into the result map); when `N*P` is at or beyond
the table's number of entries the result is the empty map inside `Ok`, not
an error. (When `N*P` overflows, the skip count wraps modulo `2^64`, so an
earlier, possibly non-empty page is returned instead.) -/
theorem C1_dump_pagination {K V : Type} (renderK : K → String) (renderV : V → String)
    (h : ReadOnlyHandle K V) (name : String) (P N : Nat) (t : ROTable K V)
    (hfind : findTable h name = some t) (hcu : t.catchUpErr = none)
    (hnov : N * P < USIZE_MOD) :
    (dump renderK renderV h name P N).1 =
      Except.ok (btreeCollect
        (((t.primaryView.drop (N * P)).take P).map
          (fun kv => (renderK kv.1, renderV kv.2)))) ∧
    (∀ m, (dump renderK renderV h name P N).1 = Except.ok m →
      (∀ p ∈ m, p ∈ ((t.primaryView.drop (N * P)).take P).map
          (fun kv => (renderK kv.1, renderV kv.2))) ∧
      (∀ e ∈ (t.primaryView.drop (N * P)).take P, renderK e.1 ∈ m.map Prod.fst) ∧
      m.length ≤ P) ∧
    (t.primaryView.length ≤ N * P →
      (dump renderK renderV h name P N).1 = Except.ok []) := by
  have hdump : (dump renderK renderV h name P N).1 =
      Except.ok (btreeCollect
        (((t.primaryView.drop (N * P)).take P).map
          (fun kv => (renderK kv.1, renderV kv.2)))) := by
    simp [dump, hfind, hcu, Nat.mod_eq_of_lt hnov]
  refine ⟨hdump, ?_, ?_⟩
  · intro m hm
    rw [hdump] at hm
    have hm2 : m = btreeCollect
        (((t.primaryView.drop (N * P)).take P).map
          (fun kv => (renderK kv.1, renderV kv.2))) := by
      cases hm
      rfl
    subst hm2
    refine ⟨?_, ?_, ?_⟩
    · intro p hp
      exact btreeCollect_sub hp
    · intro e he
      apply btreeCollect_key_mem (v := renderV e.2)
      exact List.mem_map.mpr ⟨e, he, rfl⟩
    · calc (btreeCollect (((t.primaryView.drop (N * P)).take P).map
            (fun kv => (renderK kv.1, renderV kv.2)))).length
          ≤ (((t.primaryView.drop (N * P)).take P).map
            (fun kv => (renderK kv.1, renderV kv.2))).length := btreeCollect_length_le _
        _ = ((t.primaryView.drop (N * P)).take P).length := List.length_map _ _
        _ ≤ P := List.length_take_le _ _
  · intro hle
    have hdrop : t.primaryView.drop (N * P) = [] := List.drop_eq_nil_of_le hle
    rw [hdump, hdrop]
    simp [btreeCollect]

/-- Witness for C1 at a concrete handle, table, page size 1 and page number 1. -/
theorem C1_dump_pagination_witness :
    (findTable wHandle "accounts" = some wTable ∧ wTable.catchUpErr = none ∧
     1 * 1 < USIZE_MOD) ∧
    ((dump (fun s : String => s) (fun s : String => s) wHandle "accounts" 1 1).1 =
      Except.ok (btreeCollect
        (((wTable.primaryView.drop (1 * 1)).take 1).map
          (fun kv => (kv.1, kv.2)))) ∧
    (∀ m, (dump (fun s : String => s) (fun s : String => s) wHandle "accounts" 1 1).1 =
        Except.ok m →
      (∀ p ∈ m, p ∈ ((wTable.primaryView.drop (1 * 1)).take 1).map
          (fun kv => (kv.1, kv.2))) ∧
      (∀ e ∈ (wTable.primaryView.drop (1 * 1)).take 1, e.1 ∈ m.map Prod.fst) ∧
      m.length ≤ 1) ∧
    (wTable.primaryView.length ≤ 1 * 1 →
      (dump (fun s : String => s) (fun s : String => s) wHandle "accounts" 1 1).1 =
        Except.ok [])) :=
  ⟨⟨rfl, rfl, by decide⟩,
   C1_dump_pagination (fun s => s) (fun s => s) wHandle "accounts" 1 1 wTable rfl rfl
     (by decide)⟩

/-- C3: on a read-only handle, `dump` and `count_keys` with a string that is
not a declared table name both return the ordinary `NoSuchTable` failure
value identifying that name (the embedded functions are total, so no panic is
possible), and no engine event is performed. -/
theorem C3_unknown_table {K V : Type} (renderK : K → String) (renderV : V → String)
    (h : ReadOnlyHandle K V) (name : String) (P N : Nat)
    (hname : ∀ t ∈ h.tables, t.name ≠ name) :
    dump renderK renderV h name P N = (Except.error (DumpError.NoSuchTable name), []) ∧
    count_keys h name = (Except.error (DumpError.NoSuchTable name), []) := by
  have hfind : findTable h name = none := by
    simp only [findTable, List.find?_eq_none, decide_eq_true_eq]
    exact hname
  constructor
  · simp [dump, hfind]
  · simp [count_keys, hfind]

/-- Witness for C3 at a concrete handle and an undeclared table name. -/
theorem C3_unknown_table_witness :
    (∀ t ∈ wHandle.tables, t.name ≠ "missing") ∧
    (dump (fun s : String => s) (fun s : String => s) wHandle "missing" 10 0 =
      (Except.error (DumpError.NoSuchTable "missing"), []) ∧
    count_keys wHandle "missing" = (Except.error (DumpError.NoSuchTable "missing"), [])) :=
  ⟨by decide, C3_unknown_table (fun s => s) (fun s => s) wHandle "missing" 10 0 (by decide)⟩

/-- C4: on a read-only handle, each `dump` call and each `count_keys` call on
a declared table performs the catch-up with the primary as the first engine
event of its own synchronous trace — never skipped, never deferred — and any
iteration event of the call comes after that catch-up. -/
theorem C4_catchup_before_iteration {K V : Type} (renderK : K → String)
    (renderV : V → String) (h : ReadOnlyHandle K V) (name : String) (P N : Nat)
    (t : ROTable K V) (hfind : findTable h name = some t) :
    (dump renderK renderV h name P N).2.head? = some (EngineEvent.catchUp name) ∧
    (count_keys h name).2.head? = some (EngineEvent.catchUp name) ∧
    (EngineEvent.iterate name ∈ (dump renderK renderV h name P N).2 →
      (dump renderK renderV h name P N).2 =
        [EngineEvent.catchUp name, EngineEvent.iterate name]) ∧
    (EngineEvent.iterate name ∈ (count_keys h name).2 →
      (count_keys h name).2 =
        [EngineEvent.catchUp name, EngineEvent.iterate name]) := by
  cases hcu : t.catchUpErr with
  | none => refine ⟨?_, ?_, ?_, ?_⟩ <;> simp [dump, count_keys, hfind, hcu]
  | some e => refine ⟨?_, ?_, ?_, ?_⟩ <;> simp [dump, count_keys, hfind, hcu]

/-- Witness for C4 at a concrete handle and declared table. -/
theorem C4_catchup_before_iteration_witness :
    (findTable wHandle "accounts" = some wTable) ∧
    ((dump (fun s : String => s) (fun s : String => s) wHandle "accounts" 2 0).2.head? =
      some (EngineEvent.catchUp "accounts") ∧
    (count_keys wHandle "accounts").2.head? = some (EngineEvent.catchUp "accounts") ∧
    (EngineEvent.iterate "accounts" ∈
        (dump (fun s : String => s) (fun s : String => s) wHandle "accounts" 2 0).2 →
      (dump (fun s : String => s) (fun s : String => s) wHandle "accounts" 2 0).2 =
        [EngineEvent.catchUp "accounts", EngineEvent.iterate "accounts"]) ∧
    (EngineEvent.iterate "accounts" ∈ (count_keys wHandle "accounts").2 →
      (count_keys wHandle "accounts").2 =
        [EngineEvent.catchUp "accounts", EngineEvent.iterate "accounts"])) :=
  ⟨rfl, C4_catchup_before_iteration (fun s => s) (fun s => s) wHandle "accounts" 2 0 wTable rfl⟩

/-- C9: the page `dump` returns is a map keyed by the debug rendering of the
keys: its entries are strictly sorted by rendered key string rather than kept
in iteration order, every returned entry is the rendering of some entry of
the selected page (the page starting at the wrapped `usize` offset
`(N*P) % 2^64`), the result never exceeds the page, and at a concrete input whose
two page keys render to the same debug string only one entry survives (page
length 2, result length 1). -/
theorem C9_render_collision {K V : Type} (renderK : K → String) (renderV : V → String)
    (h : ReadOnlyHandle K V) (name : String) (P N : Nat) (t : ROTable K V)
    (hfind : findTable h name = some t) (hcu : t.catchUpErr = none) :
    (∀ m, (dump renderK renderV h name P N).1 = Except.ok m →
      keysSorted m ∧
      (∀ p ∈ m, p ∈ ((t.primaryView.drop ((N * P) % USIZE_MOD)).take P).map
        (fun kv => (renderK kv.1, renderV kv.2))) ∧
      m.length ≤ ((t.primaryView.drop ((N * P) % USIZE_MOD)).take P).length) ∧
    ((dump wConstRender wValRender wCollideHandle "t" 2 0).1 =
      Except.ok [("k", "xx")] ∧
     ((wCollideTable.primaryView.drop ((0 * 2) % USIZE_MOD)).take 2).length = 2) := by
  constructor
  · intro m hm
    have hdump : (dump renderK renderV h name P N).1 =
        Except.ok (btreeCollect
          (((t.primaryView.drop ((N * P) % USIZE_MOD)).take P).map
            (fun kv => (renderK kv.1, renderV kv.2)))) := by
      simp [dump, hfind, hcu]
    rw [hdump] at hm
    have hm2 : m = btreeCollect
        (((t.primaryView.drop ((N * P) % USIZE_MOD)).take P).map
          (fun kv => (renderK kv.1, renderV kv.2))) := by
      cases hm
      rfl
    subst hm2
    refine ⟨btreeCollect_sorted _, ?_, ?_⟩
    · intro p hp
      exact btreeCollect_sub hp
    · calc (btreeCollect (((t.primaryView.drop ((N * P) % USIZE_MOD)).take P).map
            (fun kv => (renderK kv.1, renderV kv.2)))).length
          ≤ (((t.primaryView.drop ((N * P) % USIZE_MOD)).take P).map
            (fun kv => (renderK kv.1, renderV kv.2))).length := btreeCollect_length_le _
        _ = ((t.primaryView.drop ((N * P) % USIZE_MOD)).take P).length := List.length_map _ _
  · exact ⟨rfl, rfl⟩

/-- Witness for C9 at the concrete colliding handle. -/
theorem C9_render_collision_witness :
    (findTable wCollideHandle "t" = some wCollideTable ∧
     wCollideTable.catchUpErr = none) ∧
    ((∀ m, (dump wConstRender wValRender wCollideHandle "t" 2 0).1 = Except.ok m →
      keysSorted m ∧
      (∀ p ∈ m, p ∈ ((wCollideTable.primaryView.drop ((0 * 2) % USIZE_MOD)).take 2).map
        (fun kv => (wConstRender kv.1, wValRender kv.2))) ∧
      m.length ≤ ((wCollideTable.primaryView.drop ((0 * 2) % USIZE_MOD)).take 2).length) ∧
    ((dump wConstRender wValRender wCollideHandle "t" 2 0).1 =
      Except.ok [("k", "xx")] ∧
     ((wCollideTable.primaryView.drop ((0 * 2) % USIZE_MOD)).take 2).length = 2)) :=
  ⟨⟨rfl, rfl⟩,
   C9_render_collision wConstRender wValRender wCollideHandle "t" 2 0 wCollideTable rfl rfl⟩

theorem open_tables_impl_trace_head (fields : List TableDef) (env : String → RocksOptions)
    (path : String) (sec : Option String) (g : Option RocksOptions)
    (tov : Option (List (String × RocksOptions))) (eng : EngineOracle)
    (cfs : List (String × RocksOptions)) (hcfs : optCfs fields env tov = Except.ok cfs) :
    (open_tables_impl fields env path sec g tov eng).2.head? =
      some (mkOpenEvent path sec g cfs) := by
  cases sec with
  | none =>
    cases heng : eng.openResult with
    | error e => simp [open_tables_impl, hcfs, heng, mkOpenEvent]
    | ok u =>
      simp only [open_tables_impl, hcfs, heng]
      split <;> rfl
  | some p =>
    cases heng : eng.openResult with
    | error e => simp [open_tables_impl, hcfs, heng, mkOpenEvent]
    | ok u =>
      simp only [open_tables_impl, hcfs, heng]
      split <;> rfl

theorem optCfsOverride_error_of_missing {m : List (String × RocksOptions)} :
    ∀ {fields : List TableDef}, (∃ f ∈ fields, assocLookup m f.name = none) →
      ∃ f ∈ fields, assocLookup m f.name = none ∧
        optCfsOverride m fields = Except.error (OpenError.MissingTableOverride f.name) := by
  intro fields
  induction fields with
  | nil =>
    intro h
    rcases h with ⟨f, hf, _⟩
    simp at hf
  | cons f rest ih =>
    intro h
    cases hl : assocLookup m f.name with
    | none =>
      exact ⟨f, List.mem_cons_self _ _, hl, by simp [optCfsOverride, hl]⟩
    | some o =>
      have h2 : ∃ g2 ∈ rest, assocLookup m g2.name = none := by
        rcases h with ⟨g2, hg, hgn⟩
        rcases List.mem_cons.mp hg with h3 | h3
        · subst h3
          rw [hl] at hgn
          cases hgn
        · exact ⟨g2, h3, hgn⟩
      rcases ih h2 with ⟨g2, hg2, hgn, heq⟩
      refine ⟨g2, List.mem_cons_of_mem _ hg2, hgn, ?_⟩
      simp [optCfsOverride, hl, heq]

theorem optCfsOverride_ok_of_covering {m : List (String × RocksOptions)} :
    ∀ {fields : List TableDef}, (∀ f ∈ fields, (assocLookup m f.name).isSome = true) →
      optCfsOverride m fields =
        Except.ok (fields.map (fun f => (f.name, (assocLookup m f.name).getD ⟨""⟩))) := by
  intro fields
  induction fields with
  | nil => intro _; rfl
  | cons f rest ih =>
    intro h
    cases ho : assocLookup m f.name with
    | none =>
      have hc := h f (List.mem_cons_self _ _)
      rw [ho] at hc
      cases hc
    | some o =>
      have h2 := ih (fun g2 hg => h g2 (List.mem_cons_of_mem _ hg))
      simp [optCfsOverride, ho, h2]

/-- C2: when `open_tables_impl` is given a caller per-table override map that
misses the entry for at least one declared table, it fails with the
missing-override error naming a missing table, with an empty engine-event
trace: the failure occurs before any engine I/O. -/
theorem C2_missing_override (fields : List TableDef) (env : String → RocksOptions)
    (path : String) (sec : Option String) (g : Option RocksOptions)
    (m : List (String × RocksOptions)) (eng : EngineOracle)
    (hmiss : ∃ f ∈ fields, assocLookup m f.name = none) :
    ∃ f ∈ fields, assocLookup m f.name = none ∧
      open_tables_impl fields env path sec g (some m) eng =
        (Except.error (OpenError.MissingTableOverride f.name), []) := by
  rcases optCfsOverride_error_of_missing hmiss with ⟨f, hf, hn, heq⟩
  refine ⟨f, hf, hn, ?_⟩
  simp [open_tables_impl, optCfs, heq]

/-- Witness for C2: a two-table schema and a caller map missing `table2`. -/
theorem C2_missing_override_witness :
    (∃ f ∈ ([{ name := "table1", keyType := "String", valueType := "String",
               optionsFn := "custom_fn_name1" },
             { name := "table2", keyType := "i32", valueType := "String",
               optionsFn := DEFAULT_DB_OPTIONS_CUSTOM_FN }] : List TableDef),
        assocLookup [("table1", RocksOptions.mk "o1")] f.name = none) ∧
    (∃ f ∈ ([{ name := "table1", keyType := "String", valueType := "String",
               optionsFn := "custom_fn_name1" },
             { name := "table2", keyType := "i32", valueType := "String",
               optionsFn := DEFAULT_DB_OPTIONS_CUSTOM_FN }] : List TableDef),
        assocLookup [("table1", RocksOptions.mk "o1")] f.name = none ∧
        open_tables_impl
          [{ name := "table1", keyType := "String", valueType := "String",
             optionsFn := "custom_fn_name1" },
           { name := "table2", keyType := "i32", valueType := "String",
             optionsFn := DEFAULT_DB_OPTIONS_CUSTOM_FN }]
          (fun s => RocksOptions.mk s) "p" none none
          (some [("table1", RocksOptions.mk "o1")])
          { openResult := Except.ok (), reopenResult := fun _ => Except.ok () } =
          (Except.error (OpenError.MissingTableOverride f.name), [])) :=
  ⟨by decide,
   C2_missing_override _ (fun s => RocksOptions.mk s) "p" none none
     [("table1", RocksOptions.mk "o1")]
     { openResult := Except.ok (), reopenResult := fun _ => Except.ok () }
     (by decide)⟩

/-- C10: read-only opens never accept a caller per-table options map:
`get_read_only_handle` delegates to `open_tables_read_only`, which always
passes `none` as the tables override to `open_tables_impl` (with the given
secondary path, or the scratch location when none is given), so the engine
receives per-table options resolved from each table's override function and
the caller only influences the global options. -/
theorem C10_read_only_no_override (fields : List TableDef) (env : String → RocksOptions)
    (primaryPath : String) (withSec : Option String) (g : Option RocksOptions)
    (scratch : String) (eng : EngineOracle) :
    get_read_only_handle fields env primaryPath withSec g scratch eng =
      open_tables_read_only fields env primaryPath withSec g scratch eng ∧
    open_tables_read_only fields env primaryPath withSec g scratch eng =
      open_tables_impl fields env primaryPath (some (withSec.getD scratch)) g none eng ∧
    (open_tables_read_only fields env primaryPath withSec g scratch eng).2.head? =
      some (EngineEvent.openSecondary primaryPath (withSec.getD scratch) g
        (fields.map (fun f => (f.name, env f.optionsFn)))) := by
  have h2 : open_tables_read_only fields env primaryPath withSec g scratch eng =
      open_tables_impl fields env primaryPath (some (withSec.getD scratch)) g none eng := by
    cases withSec <;> rfl
  refine ⟨rfl, h2, ?_⟩
  rw [h2]
  exact open_tables_impl_trace_head fields env primaryPath (some (withSec.getD scratch))
    g none eng _ rfl

/-- C6 counterexample: the generated `get_memory_usage` method is emitted in
the impl block of the primary read-write struct, not in the read-only
struct's impl blocks, so it is not exposed on the secondary/read-only
handle. -/
theorem C6_memory_usage_counterexample :
    ("get_memory_usage" ∈ primaryHandleMethods) ∧
    ("get_memory_usage" ∉ readOnlyHandleMethods) := by decide

/-- C6 amended: `get_memory_usage` is exposed on the primary read-write
handle (not the read-only handle); it queries the engine's live memory and
cache accounting on the single shared engine instance — the result depends
only on the engine instance, not on the handle's tables — returning
`(mem_table_total, cache_total)` on success and surfacing the underlying
engine error (wrapped as `RocksDBError`) on failure. -/
theorem C6_memory_usage (stats : String → Except String MemStats)
    (h h2 : PrimaryHandle) :
    ("get_memory_usage" ∈ primaryHandleMethods ∧
     "get_memory_usage" ∉ readOnlyHandleMethods) ∧
    (∀ s, stats h.dbInstance = Except.ok s →
      get_memory_usage stats h = Except.ok (s.memTableTotal, s.cacheTotal)) ∧
    (∀ e, stats h.dbInstance = Except.error e →
      get_memory_usage stats h = Except.error (TypedStoreError.RocksDBError e)) ∧
    (h.dbInstance = h2.dbInstance →
      get_memory_usage stats h = get_memory_usage stats h2) := by
  refine ⟨by decide, ?_, ?_, ?_⟩
  · intro s hs
    simp [get_memory_usage, hs]
  · intro e he
    simp [get_memory_usage, he]
  · intro hinst
    simp [get_memory_usage, hinst]

/-- Witness for C6 at a concrete stats oracle and two handles sharing the
engine instance. -/
theorem C6_memory_usage_witness :
    ((fun _ => Except.ok (MemStats.mk 5 7) : String → Except String MemStats)
        (PrimaryHandle.mk "db" ["table1", "table2"]).dbInstance =
      Except.ok (MemStats.mk 5 7)) ∧
    (get_memory_usage (fun _ => Except.ok (MemStats.mk 5 7))
        (PrimaryHandle.mk "db" ["table1", "table2"]) = Except.ok (5, 7)) ∧
    ((PrimaryHandle.mk "db" ["table1", "table2"]).dbInstance =
      (PrimaryHandle.mk "db" []).dbInstance) ∧
    (get_memory_usage (fun _ => Except.ok (MemStats.mk 5 7))
        (PrimaryHandle.mk "db" ["table1", "table2"]) =
      get_memory_usage (fun _ => Except.ok (MemStats.mk 5 7))
        (PrimaryHandle.mk "db" [])) :=
  ⟨rfl,
   (C6_memory_usage (fun _ => Except.ok (MemStats.mk 5 7))
     (PrimaryHandle.mk "db" ["table1", "table2"])
     (PrimaryHandle.mk "db" [])).2.1 (MemStats.mk 5 7) rfl,
   rfl,
   (C6_memory_usage (fun _ => Except.ok (MemStats.mk 5 7))
     (PrimaryHandle.mk "db" ["table1", "table2"])
     (PrimaryHandle.mk "db" [])).2.2.2 rfl⟩

theorem checkField_ok_of {allowed : List String} {f : FieldDecl}
    (h : fieldTypeOk allowed f = true) :
    checkField allowed f = Except.ok (checkFieldVal f) := by
  cases hty : f.ty with
  | nonPath => simp [fieldTypeOk, hty] at h
  | path head oargs =>
    cases oargs with
    | none => simp [fieldTypeOk, hty] at h
    | some args =>
      have hmem : head ∈ allowed := by simpa [fieldTypeOk, hty] using h
      cases hattr : f.overrideAttr with
      | none => simp [checkField, hty, hmem, checkFieldVal, fieldTypeHead, fieldArgs, hattr]
      | some fn => simp [checkField, hty, hmem, checkFieldVal, fieldTypeHead, fieldArgs, hattr]

theorem checkField_error_of {allowed : List String} {f : FieldDecl}
    (h : fieldTypeOk allowed f = false) :
    checkField allowed f = Except.error (SchemaError.InvalidFieldType f.name) := by
  cases hty : f.ty with
  | nonPath => simp [checkField, hty]
  | path head oargs =>
    cases oargs with
    | none => simp [checkField, hty]
    | some args =>
      have hmem : head ∉ allowed := by
        intro hc
        rw [fieldTypeOk, hty] at h
        simp at h
        exact h hc
      simp [checkField, hty, hmem]

theorem checkField_ok_val {allowed : List String} {f : FieldDecl}
    {q : (String × String) × (List String × String)}
    (h : checkField allowed f = Except.ok q) : q = checkFieldVal f := by
  cases hok : fieldTypeOk allowed f with
  | true =>
    rw [checkField_ok_of hok] at h
    cases h
    rfl
  | false =>
    rw [checkField_error_of hok] at h
    cases h

theorem checkFields_ok_of_all {allowed : List String} :
    ∀ {fields : List FieldDecl}, (∀ f ∈ fields, fieldTypeOk allowed f = true) →
      checkFields allowed fields = Except.ok (fields.map checkFieldVal) := by
  intro fields
  induction fields with
  | nil => intro _; rfl
  | cons f rest ih =>
    intro h
    have hf := checkField_ok_of (h f (List.mem_cons_self _ _))
    have hrest := ih (fun g hg => h g (List.mem_cons_of_mem _ hg))
    simp [checkFields, hf, hrest]

theorem checkFields_error_of_bad {allowed : List String} :
    ∀ {fields : List FieldDecl}, (∃ f ∈ fields, fieldTypeOk allowed f = false) →
      ∃ f ∈ fields, fieldTypeOk allowed f = false ∧
        checkFields allowed fields = Except.error (SchemaError.InvalidFieldType f.name) := by
  intro fields
  induction fields with
  | nil =>
    intro h
    rcases h with ⟨f, hf, _⟩
    simp at hf
  | cons f rest ih =>
    intro h
    cases hok : fieldTypeOk allowed f with
    | false =>
      refine ⟨f, List.mem_cons_self _ _, hok, ?_⟩
      simp [checkFields, checkField_error_of hok]
    | true =>
      have h2 : ∃ g ∈ rest, fieldTypeOk allowed g = false := by
        rcases h with ⟨g, hg, hgf⟩
        rcases List.mem_cons.mp hg with h3 | h3
        · subst h3
          rw [hok] at hgf
          cases hgf
        · exact ⟨g, h3, hgf⟩
      rcases ih h2 with ⟨g, hg, hgf, heq⟩
      refine ⟨g, List.mem_cons_of_mem _ hg, hgf, ?_⟩
      simp [checkFields, checkField_ok_of hok, heq]

theorem checkFields_ok_val {allowed : List String} :
    ∀ {fields : List FieldDecl} {info},
      checkFields allowed fields = Except.ok info → info = fields.map checkFieldVal := by
  intro fields
  induction fields with
  | nil =>
    intro info h
    cases h
    rfl
  | cons f rest ih =>
    intro info h
    rw [checkFields] at h
    cases hcf : checkField allowed f with
    | error e => rw [hcf] at h; cases h
    | ok q =>
      rw [hcf] at h
      cases hrest : checkFields allowed rest with
      | error e => rw [hrest] at h; cases h
      | ok qs =>
        rw [hrest] at h
        cases h
        rw [checkField_ok_val hcf, ih hrest]
        rfl

/-- C7: schema validation (run once, at derive time, embedded as
`extract_struct_info`) fails with `Empty` on a schema declaring zero tables;
fails with `InvalidFieldType` naming an offending field when some field's
declared type is not an allowed table-kind wrapper; fails with
`HeterogeneousTableKinds` when the all-valid fields do not all use the same
wrapper head; and succeeds on a nonempty schema whose fields all use one
allowed wrapper. -/
theorem C7_schema_validation (allowed : List String) :
    (extract_struct_info allowed [] = Except.error SchemaError.Empty) ∧
    (∀ fields : List FieldDecl, (∃ f ∈ fields, fieldTypeOk allowed f = false) →
      ∃ f ∈ fields, fieldTypeOk allowed f = false ∧
        extract_struct_info allowed fields =
          Except.error (SchemaError.InvalidFieldType f.name)) ∧
    (∀ (f0 : FieldDecl) (rest : List FieldDecl),
      (∀ f ∈ f0 :: rest, fieldTypeOk allowed f = true) →
      (∃ f ∈ f0 :: rest, fieldTypeHead f ≠ fieldTypeHead f0) →
      extract_struct_info allowed (f0 :: rest) =
        Except.error SchemaError.HeterogeneousTableKinds) ∧
    (∀ (f0 : FieldDecl) (rest : List FieldDecl),
      (∀ f ∈ f0 :: rest, fieldTypeOk allowed f = true) →
      (∀ f ∈ f0 :: rest, fieldTypeHead f = fieldTypeHead f0) →
      extract_struct_info allowed (f0 :: rest) =
        Except.ok ((f0 :: rest).map (fun f =>
          ({ name := f.name
             keyType := keyTypeOf (fieldArgs f)
             valueType := valueTypeOf (fieldArgs f)
             optionsFn := f.overrideAttr.getD DEFAULT_DB_OPTIONS_CUSTOM_FN } : TableDef)),
          fieldTypeHead f0)) := by
  refine ⟨rfl, ?_, ?_, ?_⟩
  · intro fields hbad
    rcases checkFields_error_of_bad hbad with ⟨f, hf, hfb, heq⟩
    exact ⟨f, hf, hfb, by simp [extract_struct_info, heq]⟩
  · intro f0 rest hok hex
    have hcf : checkFields allowed (f0 :: rest) =
        Except.ok (checkFieldVal f0 :: rest.map checkFieldVal) := by
      have := checkFields_ok_of_all hok
      simpa using this
    have hfalse : ((checkFieldVal f0 :: rest.map checkFieldVal).all
        (fun q => q.1.2 = (checkFieldVal f0).1.2)) = false := by
      apply Bool.eq_false_iff.mpr
      intro hc
      rw [List.all_eq_true] at hc
      rcases hex with ⟨f, hf, hne⟩
      have hmem : checkFieldVal f ∈ checkFieldVal f0 :: rest.map checkFieldVal := by
        have : checkFieldVal f ∈ (f0 :: rest).map checkFieldVal :=
          List.mem_map.mpr ⟨f, hf, rfl⟩
        simpa using this
      have := hc (checkFieldVal f) hmem
      rw [decide_eq_true_eq] at this
      exact hne this
    simp [extract_struct_info, hcf, hfalse]
  · intro f0 rest hok hhom
    have hcf : checkFields allowed (f0 :: rest) =
        Except.ok (checkFieldVal f0 :: rest.map checkFieldVal) := by
      have := checkFields_ok_of_all hok
      simpa using this
    have htrue : ((checkFieldVal f0 :: rest.map checkFieldVal).all
        (fun q => q.1.2 = (checkFieldVal f0).1.2)) = true := by
      rw [List.all_eq_true]
      intro q hq
      have hq2 : q ∈ (f0 :: rest).map checkFieldVal := by simpa using hq
      rcases List.mem_map.mp hq2 with ⟨f, hf, hfe⟩
      rw [decide_eq_true_eq, ← hfe]
      exact hhom f hf
    simp only [extract_struct_info, hcf, List.head?_cons, htrue, if_true]
    rw [show (checkFieldVal f0 :: rest.map checkFieldVal) = (f0 :: rest).map checkFieldVal
          from by simp, List.map_map]
    rfl

/-- Witness for C7 on an empty schema, a schema with a non-wrapper field, a
mixed `Store`/`DBMap` schema, and a valid homogeneous schema. -/
theorem C7_schema_validation_witness :
    (extract_struct_info wAllowed [] = Except.error SchemaError.Empty) ∧
    ((∃ f ∈ [wBadField], fieldTypeOk wAllowed f = false) ∧
     (∃ f ∈ [wBadField], fieldTypeOk wAllowed f = false ∧
       extract_struct_info wAllowed [wBadField] =
         Except.error (SchemaError.InvalidFieldType f.name))) ∧
    ((∀ f ∈ wStoreField :: wRawFields, fieldTypeOk wAllowed f = true) ∧
     (∃ f ∈ wStoreField :: wRawFields, fieldTypeHead f ≠ fieldTypeHead wStoreField) ∧
     extract_struct_info wAllowed (wStoreField :: wRawFields) =
       Except.error SchemaError.HeterogeneousTableKinds) ∧
    ((∀ f ∈ wRaw1 :: [wRaw2], fieldTypeOk wAllowed f = true) ∧
     (∀ f ∈ wRaw1 :: [wRaw2], fieldTypeHead f = fieldTypeHead wRaw1) ∧
     extract_struct_info wAllowed (wRaw1 :: [wRaw2]) =
       Except.ok ((wRaw1 :: [wRaw2]).map (fun f =>
         ({ name := f.name
            keyType := keyTypeOf (fieldArgs f)
            valueType := valueTypeOf (fieldArgs f)
            optionsFn := f.overrideAttr.getD DEFAULT_DB_OPTIONS_CUSTOM_FN } : TableDef)),
         fieldTypeHead wRaw1)) :=
  ⟨(C7_schema_validation wAllowed).1,
   ⟨by decide, (C7_schema_validation wAllowed).2.1 [wBadField] (by decide)⟩,
   ⟨by decide, by decide,
    (C7_schema_validation wAllowed).2.2.1 wStoreField wRawFields (by decide) (by decide)⟩,
   ⟨by decide, by decide,
    (C7_schema_validation wAllowed).2.2.2 wRaw1 [wRaw2] (by decide) (by decide)⟩⟩

/-- C5: with no caller override map, extraction records each table's declared
override function (or `DEFAULT_DB_OPTIONS_CUSTOM_FN` when none was declared)
and `open_tables_impl` hands the engine the options those functions produce;
with a caller map covering every table, the engine receives exactly the
map's entry for every table, and the override functions are never consulted
(the result is independent of the function environment): no merging between
the two sources. -/
theorem C5_options_resolution :
    (∀ (allowed : List String) (raws : List FieldDecl) (tds : List TableDef) (s : String),
      extract_struct_info allowed raws = Except.ok (tds, s) →
      tds.map (fun t => t.optionsFn) =
        raws.map (fun r => r.overrideAttr.getD DEFAULT_DB_OPTIONS_CUSTOM_FN)) ∧
    (∀ (fields : List TableDef) (env : String → RocksOptions) (path : String)
        (sec : Option String) (g : Option RocksOptions) (eng : EngineOracle),
      (open_tables_impl fields env path sec g none eng).2.head? =
        some (mkOpenEvent path sec g
          (fields.map (fun f => (f.name, env f.optionsFn))))) ∧
    (∀ (fields : List TableDef) (env : String → RocksOptions) (path : String)
        (sec : Option String) (g : Option RocksOptions)
        (m : List (String × RocksOptions)) (eng : EngineOracle),
      (∀ f ∈ fields, (assocLookup m f.name).isSome = true) →
      (open_tables_impl fields env path sec g (some m) eng).2.head? =
        some (mkOpenEvent path sec g
          (fields.map (fun f =>
            (f.name, (assocLookup m f.name).getD (RocksOptions.mk "")))))) ∧
    (∀ (fields : List TableDef) (env env2 : String → RocksOptions) (path : String)
        (sec : Option String) (g : Option RocksOptions)
        (m : List (String × RocksOptions)) (eng : EngineOracle),
      open_tables_impl fields env path sec g (some m) eng =
        open_tables_impl fields env2 path sec g (some m) eng) := by
  refine ⟨?_, ?_, ?_, ?_⟩
  · intro allowed raws tds s h
    cases hcf : checkFields allowed raws with
    | error e =>
      simp [extract_struct_info, hcf] at h
    | ok info =>
      simp only [extract_struct_info, hcf] at h
      have hinfo := checkFields_ok_val hcf
      subst hinfo
      cases hh : (raws.map checkFieldVal).head? with
      | none =>
        rw [hh] at h
        simp at h
      | some first =>
        simp only [hh] at h
        by_cases hall : ((raws.map checkFieldVal).all (fun q => q.1.2 = first.1.2)) = true
        · rw [if_pos hall] at h
          injection h with h2
          have htds : tds = (raws.map checkFieldVal).map (fun q =>
              ({ name := q.1.1, keyType := keyTypeOf q.2.1,
                 valueType := valueTypeOf q.2.1, optionsFn := q.2.2 } : TableDef)) :=
            (congrArg Prod.fst h2).symm
          rw [htds, List.map_map, List.map_map]
          rfl
        · rw [if_neg hall] at h
          cases h
  · intro fields env path sec g eng
    exact open_tables_impl_trace_head fields env path sec g none eng _ rfl
  · intro fields env path sec g m eng hcov
    exact open_tables_impl_trace_head fields env path sec g (some m) eng _
      (optCfsOverride_ok_of_covering hcov)
  · intro fields env env2 path sec g m eng
    rfl

/-- Witness for C5 at the concrete schema, environment and caller maps. -/
theorem C5_options_resolution_witness :
    (extract_struct_info wAllowed wRawFields = Except.ok (wTables, "DBMap")) ∧
    (wTables.map (fun t => t.optionsFn) =
      wRawFields.map (fun r => r.overrideAttr.getD DEFAULT_DB_OPTIONS_CUSTOM_FN)) ∧
    ((open_tables_impl wTables wEnv "p" none none none wEng).2.head? =
      some (mkOpenEvent "p" none none
        (wTables.map (fun f => (f.name, wEnv f.optionsFn))))) ∧
    (∀ f ∈ wTables, (assocLookup wFullMap f.name).isSome = true) ∧
    ((open_tables_impl wTables wEnv "p" none none (some wFullMap) wEng).2.head? =
      some (mkOpenEvent "p" none none
        (wTables.map (fun f =>
          (f.name, (assocLookup wFullMap f.name).getD (RocksOptions.mk "")))))) ∧
    (open_tables_impl wTables wEnv "p" none none (some wFullMap) wEng =
      open_tables_impl wTables (fun _ => RocksOptions.mk "z") "p" none none
        (some wFullMap) wEng) :=
  ⟨rfl,
   C5_options_resolution.1 wAllowed wRawFields wTables "DBMap" rfl,
   C5_options_resolution.2.1 wTables wEnv "p" none none wEng,
   by decide,
   C5_options_resolution.2.2.1 wTables wEnv "p" none none wFullMap wEng (by decide),
   C5_options_resolution.2.2.2 wTables wEnv (fun _ => RocksOptions.mk "z") "p" none none
     wFullMap wEng⟩

/-- C8: for a schema with distinct table names, `describe_tables` returns a
map whose key set is exactly the declared table names, whose value at each
table is that table's declared key-type and value-type names, and which
contains nothing else; the function reads only the static schema — no opened
handle occurs in its inputs — and the read-only struct's generated copy is
the same function. -/
theorem C8_describe_tables (fields : List TableDef)
    (hnd : (fields.map (fun f => f.name)).Nodup) :
    (∀ n, n ∈ (describe_tables fields).map Prod.fst ↔
      n ∈ fields.map (fun f => f.name)) ∧
    (∀ f ∈ fields, (f.name, (f.keyType, f.valueType)) ∈ describe_tables fields) ∧
    (∀ p ∈ describe_tables fields, ∃ f ∈ fields,
      p = (f.name, (f.keyType, f.valueType))) ∧
    describe_tables_ro fields = describe_tables fields := by
  have hmapnd : ((fields.map (fun f =>
      (f.name, (f.keyType, f.valueType)))).map Prod.fst).Nodup := by
    rw [List.map_map]
    exact hnd
  refine ⟨?_, ?_, ?_, rfl⟩
  · intro n
    constructor
    · intro hn
      rcases exists_val_of_key_mem hn with ⟨w, hw⟩
      have hw2 : (n, w) ∈ fields.map (fun f => (f.name, (f.keyType, f.valueType))) :=
        btreeCollect_sub hw
      rcases List.mem_map.mp hw2 with ⟨f, hf, hfe⟩
      have hne : f.name = n := congrArg Prod.fst hfe
      rw [← hne]
      exact List.mem_map.mpr ⟨f, hf, rfl⟩
    · intro hn
      rcases List.mem_map.mp hn with ⟨f, hf, hfe⟩
      rw [← hfe]
      exact btreeCollect_key_mem (v := (f.keyType, f.valueType))
        (List.mem_map.mpr ⟨f, hf, rfl⟩)
  · intro f hf
    exact btreeCollect_mem_of_nodup hmapnd (List.mem_map.mpr ⟨f, hf, rfl⟩)
  · intro p hp
    have hp2 : p ∈ fields.map (fun f => (f.name, (f.keyType, f.valueType))) :=
      btreeCollect_sub hp
    rcases List.mem_map.mp hp2 with ⟨f, hf, hfe⟩
    exact ⟨f, hf, hfe.symm⟩

/-- Witness for C8 at the concrete two-table schema. -/
theorem C8_describe_tables_witness :
    ((wTables.map (fun f => f.name)).Nodup) ∧
    ((∀ n, n ∈ (describe_tables wTables).map Prod.fst ↔
      n ∈ wTables.map (fun f => f.name)) ∧
    (∀ f ∈ wTables, (f.name, (f.keyType, f.valueType)) ∈ describe_tables wTables) ∧
    (∀ p ∈ describe_tables wTables, ∃ f ∈ wTables,
      p = (f.name, (f.keyType, f.valueType))) ∧
    describe_tables_ro wTables = describe_tables wTables) :=
  ⟨by decide, C8_describe_tables wTables (by decide)⟩
